import Mathlib

/-!
Verification of the UT-Marketplace end-to-end-encryption layer.

This development shallowly embeds the key-management and message-encryption
subsystem of the repository:

* `src/app/lib/encryption.ts` — `generateKeyPair`, `encryptMessage`,
  `decryptMessage`, `encryptPrivateKey`, `decryptPrivateKey`, `isValidKey`,
  `arrayBufferToBase64`, `base64ToArrayBuffer`;
* `src/app/contexts/CryptoContext.tsx` — the in-memory session key cache
  (`setKeys` / `clearKeys` / `hasKeys`);
* `src/app/lib/database/MessageService.ts` — `sendMessage`, the decryption
  step of `getMessages`, the conversation-preview computation of
  `getConversations`, and `looksEncrypted`.

Modelling conventions:

* Byte strings (`ArrayBuffer` / `Uint8Array`) are `List Nat` with every entry
  `< 256` (`IsBytes`).
* The browser's `btoa` / `atob` are implemented concretely, following the
  WHATWG forgiving-base64 algorithm (`atob` strips ASCII whitespace, strips up
  to two trailing `=` when the length is a multiple of four, rejects a length
  `≡ 1 (mod 4)` and any character outside the base64 alphabet).  A JS "binary
  string" (code points < 256) is identified with its byte list, since
  `String.fromCharCode` / `charCodeAt` are mutually inverse on that range.
* The Web Crypto primitives (`crypto.subtle` RSA-OAEP and AES-GCM operations,
  PBKDF2 key derivation) and `TextEncoder`/`TextDecoder` are not code of the
  repository; they are modelled by a `CryptoBackend` structure whose fields
  are the primitive operations and whose law fields are the standard
  functional-correctness contracts of those primitives (round-trips,
  authenticated-decryption failure on a wrong key, ciphertext distinctness
  for distinct nonces as the ideal-cipher reading of AES-GCM).  Randomness
  (`crypto.getRandomValues`) is modelled by an explicit entropy tape
  `Nat → Nat` read at fixed offsets.  A concrete executable instance
  `toyBackend` witnesses that the laws are satisfiable and lets every theorem
  be evaluated on concrete inputs.
* JavaScript `async` functions that can reject are embedded as
  `Except String α`; a `try { … } catch { … }` is a `match` on that result.
* JSON serialization of the private-key blob (`JSON.stringify` /
  `JSON.parse` on `{salt, iv, data}` with number-array fields) is implemented
  concretely for exactly the shape the code produces.
-/

-- ============================================================================
-- Byte strings
-- ============================================================================

/-- A JS `Uint8Array` / `ArrayBuffer` is modelled as a list of naturals below
256. -/
def IsBytes (l : List Nat) : Prop := ∀ x ∈ l, x < 256

instance (l : List Nat) : Decidable (IsBytes l) :=
  inferInstanceAs (Decidable (∀ x ∈ l, x < 256))

-- ============================================================================
-- Base64: the browser's btoa / atob
-- ============================================================================

/-- The base64 alphabet, in index order. -/
def base64Chars : List Char :=
  "ABCDEFGHIJKLMNOPQRSTUVWXYZabcdefghijklmnopqrstuvwxyz0123456789+/".data

/-- Character of a sextet value (0–63). -/
def b64Char (n : Nat) : Char := base64Chars.getD n 'A'

/-- Linear scan computing the alphabet index of a character. -/
def b64IndexAux : List Char → Char → Nat → Option Nat
  | [], _, _ => none
  | a :: rest, c, i => if a = c then some i else b64IndexAux rest c (i + 1)

/-- Index of a character in the base64 alphabet; `none` for a character
outside the alphabet (including `=`). -/
def b64IndexOf (c : Char) : Option Nat := b64IndexAux base64Chars c 0

/-- ASCII whitespace, which forgiving-base64 decoding removes first. -/
def isB64Ws (c : Char) : Bool :=
  c.toNat = 9 || c.toNat = 10 || c.toNat = 12 || c.toNat = 13 || c.toNat = 32

/-- Bytes to sextet values, three bytes becoming four sextets; a final group
of one or two bytes becomes two or three sextets. -/
def encodeSextets : List Nat → List Nat
  | [] => []
  | [a] => [a / 4, a % 4 * 16]
  | [a, b] => [a / 4, (a % 4 * 16 + b / 16), b % 16 * 4]
  | a :: b :: c :: rest =>
      (a / 4) :: ((a % 4 * 16 + b / 16) ::
        ((b % 16 * 4 + c / 64) :: ((c % 64) :: encodeSextets rest)))

/-- Sextet values back to bytes; a group of four sextets yields three bytes,
a final group of two or three yields one or two bytes, and a leftover single
sextet is invalid. -/
def decodeSextets : List Nat → Option (List Nat)
  | [] => some []
  | [_] => none
  | [a, b] => some [a * 4 + b / 16]
  | [a, b, c] => some [a * 4 + b / 16, (b % 16 * 16 + c / 4)]
  | a :: b :: c :: d :: rest =>
      (decodeSextets rest).map
        (fun tail =>
          (a * 4 + b / 16) :: ((b % 16 * 16 + c / 4) :: ((c % 4 * 64 + d) :: tail)))

/-- Padding appended by `btoa`, determined by the byte count mod 3. -/
def padFor (len : Nat) : List Char :=
  if len % 3 = 1 then ['=', '=']
  else if len % 3 = 2 then ['='] else []

/-- Character list produced by `btoa` on a byte list. -/
def btoaList (l : List Nat) : List Char :=
  (encodeSextets l).map b64Char ++ padFor l.length

/-- Removal of up to two trailing `=` characters, working on the reversed
list. -/
def stripPadRev (cs : List Char) : List Char :=
  match cs with
  | c1 :: c2 :: rest =>
      if c1 = '=' then (if c2 = '=' then rest else c2 :: rest) else cs
  | [c1] => if c1 = '=' then [] else cs
  | [] => []

/-- Forgiving-base64 padding removal: trailing `=` (at most two) are removed
only when the length is a multiple of four. -/
def stripPad (cs : List Char) : List Char :=
  if cs.length % 4 = 0 then (stripPadRev cs.reverse).reverse else cs

/-- Effectful map over a list in the `Option` monad, failing if any element
fails.  Models the per-character alphabet check of `atob`. -/
def mapOpt (f : α → Option β) : List α → Option (List β)
  | [] => some []
  | a :: rest =>
      match f a, mapOpt f rest with
      | some b, some bs => some (b :: bs)
      | _, _ => none

/-- The browser's `atob` (WHATWG forgiving-base64 decode) on a character
list, returning the decoded bytes, or `none` when `atob` would throw
`InvalidCharacterError`. -/
def atobList (cs0 : List Char) : Option (List Nat) :=
  let cs := stripPad (cs0.filter (fun c => !isB64Ws c))
  if cs.length % 4 = 1 then none
  else
    match mapOpt b64IndexOf cs with
    | none => none
    | some vals => decodeSextets vals

/-- Source: `arrayBufferToBase64` (encryption.ts, lines 272–279): bytes →
binary string → `btoa`. -/
def arrayBufferToBase64 (l : List Nat) : String := ⟨btoaList l⟩

/-- Source: `base64ToArrayBuffer` (encryption.ts, lines 284–291): `atob` →
per-character `charCodeAt` → bytes.  `none` models the `InvalidCharacterError`
thrown by `atob` on malformed input. -/
def base64ToArrayBuffer (s : String) : Option (List Nat) := atobList s.data

-- ============================================================================
-- Base64 round-trip proof
-- ============================================================================

/-- Induction along the three-byte grouping used by the base64 encoder. -/
theorem chunk3Induction {motive : List Nat → Prop} (h0 : motive [])
    (h1 : ∀ a, motive [a]) (h2 : ∀ a b, motive [a, b])
    (h3 : ∀ a b c rest, motive rest → motive (a :: b :: c :: rest)) :
    ∀ l, motive l
  | [] => h0
  | [a] => h1 a
  | [a, b] => h2 a b
  | a :: b :: c :: rest => h3 a b c rest (chunk3Induction h0 h1 h2 h3 rest)

theorem decodeSextets_encodeSextets :
    ∀ l, IsBytes l → decodeSextets (encodeSextets l) = some l := by
  intro l
  induction l using chunk3Induction with
  | h0 => intro _; rfl
  | h1 a =>
      intro h
      have ha : a < 256 := h a (by simp)
      simp only [encodeSextets, decodeSextets, Option.some.injEq, List.cons.injEq, and_true]
      omega
  | h2 a b =>
      intro h
      have ha : a < 256 := h a (by simp)
      have hb : b < 256 := h b (by simp)
      simp only [encodeSextets, decodeSextets, Option.some.injEq, List.cons.injEq, and_true]
      omega
  | h3 a b c rest ih =>
      intro h
      have ha : a < 256 := h a (by simp)
      have hb : b < 256 := h b (by simp)
      have hc : c < 256 := h c (by simp)
      have hrest : IsBytes rest := fun x hx => h x (by simp [hx])
      simp only [encodeSextets, decodeSextets, ih hrest, Option.map_some', Option.some.injEq,
        List.cons.injEq, and_true]
      omega

theorem encodeSextets_length_mod (l : List Nat) : (encodeSextets l).length % 4 ≠ 1 := by
  induction l using chunk3Induction with
  | h0 => simp [encodeSextets]
  | h1 a => simp [encodeSextets]
  | h2 a b => simp [encodeSextets]
  | h3 a b c rest ih =>
      simp only [encodeSextets, List.length_cons]
      omega

theorem encodeSextets_lt64 (l : List Nat) (h : IsBytes l) :
    ∀ x ∈ encodeSextets l, x < 64 := by
  induction l using chunk3Induction with
  | h0 => simp [encodeSextets]
  | h1 a =>
      have ha : a < 256 := h a (by simp)
      simp only [encodeSextets, List.mem_cons, List.not_mem_nil, or_false]
      rintro x (rfl | rfl) <;> omega
  | h2 a b =>
      have ha : a < 256 := h a (by simp)
      have hb : b < 256 := h b (by simp)
      simp only [encodeSextets, List.mem_cons, List.not_mem_nil, or_false]
      rintro x (rfl | rfl | rfl) <;> omega
  | h3 a b c rest ih =>
      have ha : a < 256 := h a (by simp)
      have hb : b < 256 := h b (by simp)
      have hc : c < 256 := h c (by simp)
      have hrest : IsBytes rest := fun x hx => h x (by simp [hx])
      simp only [encodeSextets, List.mem_cons]
      rintro x (rfl | rfl | rfl | rfl | hx)
      · omega
      · omega
      · omega
      · omega
      · exact ih hrest x hx

theorem b64IndexOf_b64Char : ∀ n, n < 64 → b64IndexOf (b64Char n) = some n := by decide

theorem isB64Ws_b64Char (n : Nat) : isB64Ws (b64Char n) = false := by
  by_cases h : n < 64
  · revert h; revert n; decide
  · have hb : base64Chars.length = 64 := rfl
    have hle : base64Chars.length ≤ n := by omega
    unfold b64Char
    rw [List.getD_eq_default _ _ hle]
    decide

theorem b64Char_ne_eq (n : Nat) : b64Char n ≠ '=' := by
  by_cases h : n < 64
  · revert h; revert n; decide
  · have hb : base64Chars.length = 64 := rfl
    have hle : base64Chars.length ≤ n := by omega
    unfold b64Char
    rw [List.getD_eq_default _ _ hle]
    decide

theorem mapOpt_b64 (s : List Nat) (h : ∀ x ∈ s, x < 64) :
    mapOpt b64IndexOf (s.map b64Char) = some s := by
  induction s with
  | nil => rfl
  | cons a rest ih =>
      have ha : a < 64 := h a (by simp)
      have hrest : ∀ x ∈ rest, x < 64 := fun x hx => h x (by simp [hx])
      simp only [List.map_cons, mapOpt, b64IndexOf_b64Char a ha, ih hrest]

theorem stripPad_of_pad (E pad : List Char) (hE : E ≠ [])
    (hne : ∀ c ∈ E, c ≠ '=')
    (hpad : pad = [] ∨ pad = ['='] ∨ pad = ['=', '='])
    (hlen : (E.length + pad.length) % 4 = 0) : stripPad (E ++ pad) = E := by
  rcases List.eq_nil_or_concat E with rfl | ⟨E', e, rfl⟩
  · exact absurd rfl hE
  rw [List.concat_eq_append] at hne hlen ⊢
  have he : e ≠ '=' := hne e (by simp)
  rcases hpad with rfl | rfl | rfl
  · rw [List.append_nil]
    unfold stripPad
    rw [if_pos (by simpa using hlen)]
    have hrev : (E' ++ [e]).reverse = e :: E'.reverse := by simp
    rw [hrev]
    cases hE' : E'.reverse with
    | nil =>
        have hnil : E' = [] := List.reverse_eq_nil_iff.mp hE'
        subst hnil
        simp [stripPadRev, he]
    | cons c2 rest =>
        simp only [stripPadRev, if_neg he]
        rw [← hE']
        simp
  · unfold stripPad
    rw [if_pos (by simpa using hlen)]
    have hrev : (E' ++ [e]) ++ ['='] = (E' ++ [e]) ++ ['='] := rfl
    have hrev2 : ((E' ++ [e]) ++ ['=']).reverse = '=' :: (e :: E'.reverse) := by simp
    rw [hrev2]
    simp only [stripPadRev, if_pos rfl, if_neg he]
    simp
  · unfold stripPad
    rw [if_pos (by simpa using hlen)]
    have hrev2 : ((E' ++ [e]) ++ ['=', '=']).reverse = '=' :: ('=' :: (e :: E'.reverse)) := by simp
    rw [hrev2]
    simp only [stripPadRev, if_pos rfl]
    simp

theorem padFor_add3 (n : Nat) : padFor (n + 3) = padFor n := by
  have h : (n + 3) % 3 = n % 3 := by omega
  simp only [padFor, h]

theorem btoa_total_length_mod (l : List Nat) :
    ((encodeSextets l).length + (padFor l.length).length) % 4 = 0 := by
  induction l using chunk3Induction with
  | h0 => simp [encodeSextets, padFor]
  | h1 a => simp [encodeSextets, padFor]
  | h2 a b => simp [encodeSextets, padFor]
  | h3 a b c rest ih =>
      simp only [encodeSextets, List.length_cons]
      have hp : padFor (rest.length + 1 + 1 + 1) = padFor rest.length := by
        have h3 : rest.length + 1 + 1 + 1 = rest.length + 3 := by omega
        rw [h3, padFor_add3]
      rw [hp]
      omega

theorem encodeSextets_ne_nil : ∀ l : List Nat, l ≠ [] → encodeSextets l ≠ []
  | [], h => absurd rfl h
  | [_], _ => by simp [encodeSextets]
  | [_, _], _ => by simp [encodeSextets]
  | _ :: _ :: _ :: _, _ => by simp [encodeSextets]

theorem padFor_shape (n : Nat) :
    padFor n = [] ∨ padFor n = ['='] ∨ padFor n = ['=', '='] := by
  unfold padFor
  by_cases h1 : n % 3 = 1
  · simp [h1]
  · by_cases h2 : n % 3 = 2 <;> simp [h1, h2]

/-- Round-trip of the repository's byte/base64 conversions: `atob` inverts
`btoa` on every byte list. -/
theorem atobList_btoaList (l : List Nat) (h : IsBytes l) :
    atobList (btoaList l) = some l := by
  rcases eq_or_ne l [] with rfl | hl
  · rfl
  have hfilter : (btoaList l).filter (fun c => !isB64Ws c) = btoaList l := by
    rw [List.filter_eq_self]
    intro c hc
    simp only [btoaList, List.mem_append] at hc
    rcases hc with hc | hc
    · obtain ⟨n, _, rfl⟩ := List.mem_map.mp hc
      simp [isB64Ws_b64Char]
    · rcases padFor_shape l.length with hp | hp | hp <;> rw [hp] at hc <;> simp_all <;> decide
  have hstrip : stripPad (btoaList l) = (encodeSextets l).map b64Char := by
    unfold btoaList
    apply stripPad_of_pad
    · simp only [ne_eq, List.map_eq_nil_iff]
      exact encodeSextets_ne_nil l hl
    · intro c hc
      obtain ⟨n, _, rfl⟩ := List.mem_map.mp hc
      exact b64Char_ne_eq n
    · exact padFor_shape l.length
    · simpa using btoa_total_length_mod l
  unfold atobList
  rw [hfilter, hstrip]
  have hmod : ((encodeSextets l).map b64Char).length % 4 ≠ 1 := by
    simpa using encodeSextets_length_mod l
  rw [if_neg hmod, mapOpt_b64 _ (encodeSextets_lt64 l h)]
  exact decodeSextets_encodeSextets l h

/-- String-level form of the base64 round-trip. -/
theorem base64ToArrayBuffer_arrayBufferToBase64 (l : List Nat) (h : IsBytes l) :
    base64ToArrayBuffer (arrayBufferToBase64 l) = some l :=
  atobList_btoaList l h

-- ============================================================================
-- Decimal numbers and the JSON shape produced by encryptPrivateKey
-- ============================================================================

/-- Decimal digit character. -/
def digitChar (n : Nat) : Char := Char.ofNat (48 + n)

/-- Decimal digits of a natural number, most significant first, as printed by
`JSON.stringify` for a JS number that is a small integer. -/
def natDigits (n : Nat) : List Char :=
  if _h : n < 10 then [digitChar n]
  else natDigits (n / 10) ++ [digitChar (n % 10)]
termination_by n
decreasing_by exact Nat.div_lt_self (by omega) (by omega)

/-- ASCII decimal digit test. -/
def isDigitChar (c : Char) : Bool := 48 ≤ c.toNat && c.toNat ≤ 57

/-- Greedy digit consumption with an accumulator. -/
def parseNatAux : List Char → Nat → Nat × List Char
  | [], acc => (acc, [])
  | c :: cs, acc =>
      if isDigitChar c then parseNatAux cs (acc * 10 + (c.toNat - 48))
      else (acc, c :: cs)

/-- Reading a decimal number off the front of a character list; fails unless
the first character is a digit. -/
def parseJsonNat (cs : List Char) : Option (Nat × List Char) :=
  match cs with
  | c :: _ => if isDigitChar c then some (parseNatAux cs 0) else none
  | [] => none

/-- Condition letting the greedy number reader stop exactly at a boundary. -/
def HeadNotDigit : List Char → Prop
  | [] => True
  | c :: _ => isDigitChar c = false

theorem isDigitChar_digitChar : ∀ n, n < 10 → isDigitChar (digitChar n) = true := by decide

theorem digitChar_toNat : ∀ n, n < 10 → (digitChar n).toNat - 48 = n := by decide

theorem natDigits_ne_nil (n : Nat) : natDigits n ≠ [] := by
  rw [natDigits]
  split <;> simp

theorem natDigits_all_digit (n : Nat) : ∀ c ∈ natDigits n, isDigitChar c = true := by
  induction n using Nat.strong_induction_on with
  | _ n ih =>
      rw [natDigits]
      split
      · intro c hc
        rw [List.mem_singleton] at hc
        subst hc
        exact isDigitChar_digitChar n (by omega)
      · intro c hc
        rw [List.mem_append] at hc
        rcases hc with hc | hc
        · exact ih (n / 10) (Nat.div_lt_self (by omega) (by omega)) c hc
        · rw [List.mem_singleton] at hc
          subst hc
          exact isDigitChar_digitChar (n % 10) (by omega)

theorem parseNatAux_natDigits (n : Nat) :
    ∀ acc rest, ∃ k, parseNatAux (natDigits n ++ rest) acc
      = parseNatAux rest (acc * 10 ^ k + n) := by
  induction n using Nat.strong_induction_on with
  | _ n ih =>
      intro acc rest
      rw [natDigits]
      split
      · refine ⟨1, ?_⟩
        simp only [List.singleton_append, parseNatAux,
          if_pos (isDigitChar_digitChar n (by omega)), digitChar_toNat n (by omega)]
        norm_num
      · obtain ⟨k, hk⟩ := ih (n / 10) (Nat.div_lt_self (by omega) (by omega))
          acc ([digitChar (n % 10)] ++ rest)
        rw [List.append_assoc, hk]
        refine ⟨k + 1, ?_⟩
        simp only [List.singleton_append, parseNatAux,
          if_pos (isDigitChar_digitChar (n % 10) (by omega)),
          digitChar_toNat (n % 10) (by omega)]
        have harith : (acc * 10 ^ k + n / 10) * 10 + n % 10 = acc * 10 ^ (k + 1) + n := by
          rw [pow_succ, ← mul_assoc]
          generalize acc * 10 ^ k = A
          omega
        rw [harith]
        rfl

theorem parseJsonNat_natDigits (n : Nat) (rest : List Char) (h : HeadNotDigit rest) :
    parseJsonNat (natDigits n ++ rest) = some (n, rest) := by
  obtain ⟨d, ds, hd⟩ : ∃ d ds, natDigits n = d :: ds := by
    cases hnd : natDigits n with
    | nil => exact absurd hnd (natDigits_ne_nil n)
    | cons d ds => exact ⟨d, ds, rfl⟩
  have hdig : isDigitChar d = true := natDigits_all_digit n d (by rw [hd]; simp)
  obtain ⟨k, hk⟩ := parseNatAux_natDigits n 0 rest
  rw [hd] at hk ⊢
  simp only [List.cons_append, parseJsonNat, if_pos hdig]
  rw [← List.cons_append, hk]
  simp only [Nat.zero_mul, Nat.zero_add]
  cases rest with
  | nil => rfl
  | cons c cs =>
      simp only [HeadNotDigit] at h
      simp [parseNatAux, h]

-- ============================================================================
-- JSON number arrays
-- ============================================================================

/-- Comma-separated decimal rendering of a number list, as inside a
`JSON.stringify` array. -/
def jsonItems : List Nat → List Char
  | [] => []
  | [n] => natDigits n
  | n :: rest => natDigits n ++ ',' :: jsonItems rest

/-- Bracketed JSON array of numbers. -/
def jsonNatList (l : List Nat) : List Char := '[' :: jsonItems l ++ [']']

/-- Fueled reader for one-or-more comma-separated numbers terminated by a
closing bracket. -/
def parseItems : Nat → List Char → Option (List Nat × List Char)
  | 0, _ => none
  | fuel + 1, cs =>
      match parseJsonNat cs with
      | none => none
      | some (n, cs1) =>
          match cs1 with
          | ',' :: cs2 =>
              match parseItems fuel cs2 with
              | none => none
              | some (ns, cs3) => some (n :: ns, cs3)
          | ']' :: cs2 => some ([n], cs2)
          | _ => none

/-- Reader for a JSON number array (the restriction of `JSON.parse` to the
array shape `encryptPrivateKey` serializes). -/
def parseNatList (cs : List Char) : Option (List Nat × List Char) :=
  match cs with
  | '[' :: cs1 =>
      match cs1 with
      | c :: cs2 => if c = ']' then some ([], cs2) else parseItems cs1.length (c :: cs2)
      | [] => none
  | _ => none

theorem jsonItems_length_ge (l : List Nat) : l.length ≤ (jsonItems l).length := by
  induction l with
  | nil => simp [jsonItems]
  | cons n tail ih =>
      cases tail with
      | nil =>
          have := natDigits_ne_nil n
          have : 1 ≤ (natDigits n).length := by
            cases hnd : natDigits n with
            | nil => exact absurd hnd (natDigits_ne_nil n)
            | cons _ _ => simp
          simpa [jsonItems] using this
      | cons m rest =>
          simp only [jsonItems, List.length_append, List.length_cons] at ih ⊢
          omega

theorem parseItems_jsonItems :
    ∀ (l : List Nat) (fuel : Nat) (rest : List Char), l ≠ [] → l.length ≤ fuel →
      parseItems fuel (jsonItems l ++ ']' :: rest) = some (l, rest) := by
  intro l
  induction l with
  | nil => intro fuel rest h _; exact absurd rfl h
  | cons n tail ih =>
      intro fuel rest _ hfuel
      cases fuel with
      | zero => simp at hfuel
      | succ f =>
          cases tail with
          | nil =>
              simp only [jsonItems, parseItems,
                parseJsonNat_natDigits n (']' :: rest) (by simp [HeadNotDigit, isDigitChar])]
          | cons m tail2 =>
              have hshape : jsonItems (n :: m :: tail2) ++ ']' :: rest
                  = natDigits n ++ ',' :: (jsonItems (m :: tail2) ++ ']' :: rest) := by
                simp [jsonItems]
              rw [hshape]
              simp only [parseItems,
                parseJsonNat_natDigits n (',' :: (jsonItems (m :: tail2) ++ ']' :: rest))
                  (by simp [HeadNotDigit, isDigitChar])]
              rw [ih f rest (by simp) (by simpa using hfuel)]

theorem parseNatList_jsonNatList (l : List Nat) (rest : List Char) :
    parseNatList (jsonNatList l ++ rest) = some (l, rest) := by
  cases l with
  | nil => simp [jsonNatList, jsonItems, parseNatList]
  | cons n tail =>
      obtain ⟨d, ds, hd⟩ : ∃ d ds, natDigits n = d :: ds := by
        cases hnd : natDigits n with
        | nil => exact absurd hnd (natDigits_ne_nil n)
        | cons d ds => exact ⟨d, ds, rfl⟩
      have hdig : isDigitChar d = true := natDigits_all_digit n d (by rw [hd]; simp)
      have hdne : d ≠ ']' := by
        intro h
        rw [h] at hdig
        simp [isDigitChar] at hdig
      have hhead : ∃ cs2, jsonItems (n :: tail) ++ ']' :: rest = d :: cs2 := by
        cases tail with
        | nil => exact ⟨ds ++ ']' :: rest, by simp [jsonItems, hd]⟩
        | cons m t2 => exact ⟨ds ++ ',' :: jsonItems (m :: t2) ++ ']' :: rest,
            by simp [jsonItems, hd]⟩
      obtain ⟨cs2, hcs2⟩ := hhead
      have hshape : jsonNatList (n :: tail) ++ rest = '[' :: (d :: cs2) := by
        simp only [jsonNatList, List.cons_append, List.append_assoc, List.cons.injEq, true_and]
        rw [← hcs2]
        simp
      rw [hshape]
      simp only [parseNatList, if_neg hdne]
      rw [← hcs2]
      have hlen : (n :: tail).length ≤ (jsonItems (n :: tail) ++ ']' :: rest).length := by
        have hg := jsonItems_length_ge (n :: tail)
        simp only [List.length_append, List.length_cons] at hg ⊢
        omega
      exact parseItems_jsonItems (n :: tail) _ rest (by simp) hlen

-- ============================================================================
-- The serialized private-key blob
-- ============================================================================

/-- Components serialized by `encryptPrivateKey`: `JSON.stringify({salt, iv,
data})` with each field a JS number array. -/
structure KeyBlob where
  salt : List Nat
  iv : List Nat
  data : List Nat
deriving DecidableEq

/-- Opening brace, written via its code point. -/
def lbrace : Char := Char.ofNat 123

/-- Closing brace, written via its code point. -/
def rbrace : Char := Char.ofNat 125

/-- Character list of `JSON.stringify({salt: …, iv: …, data: …})`, keys in
insertion order as the source object literal lists them. -/
def blobJsonChars (b : KeyBlob) : List Char :=
  (lbrace :: "\"salt\":".data) ++ jsonNatList b.salt
    ++ (',' :: "\"iv\":".data) ++ jsonNatList b.iv
    ++ (',' :: "\"data\":".data) ++ jsonNatList b.data ++ [rbrace]

/-- Models the `JSON.stringify` call at the end of `encryptPrivateKey`. -/
def blobStringify (b : KeyBlob) : String := ⟨blobJsonChars b⟩

/-- Match a literal prefix and return the remainder. -/
def expectChars (pat cs : List Char) : Option (List Char) :=
  if pat.isPrefixOf cs then some (cs.drop pat.length) else none

/-- Models the `JSON.parse` + destructuring at the top of `decryptPrivateKey`,
restricted to the exact shape `encryptPrivateKey` serializes; `none` models a
parse (or destructuring) failure, which the surrounding `try` turns into the
single error below. -/
def parseBlobChars (cs : List Char) : Option KeyBlob :=
  match expectChars (lbrace :: "\"salt\":".data) cs with
  | none => none
  | some cs1 =>
      match parseNatList cs1 with
      | none => none
      | some (salt, cs2) =>
          match expectChars (',' :: "\"iv\":".data) cs2 with
          | none => none
          | some cs3 =>
              match parseNatList cs3 with
              | none => none
              | some (iv, cs4) =>
                  match expectChars (',' :: "\"data\":".data) cs4 with
                  | none => none
                  | some cs5 =>
                      match parseNatList cs5 with
                      | none => none
                      | some (data, cs6) =>
                          match cs6 with
                          | [c] => if c = rbrace then some ⟨salt, iv, data⟩ else none
                          | _ => none

/-- String-level blob parse. -/
def blobParse (s : String) : Option KeyBlob := parseBlobChars s.data

theorem expectChars_append (pat rest : List Char) :
    expectChars pat (pat ++ rest) = some rest := by
  unfold expectChars
  rw [if_pos (by rw [List.isPrefixOf_iff_prefix]; exact List.prefix_append pat rest)]
  rw [List.drop_left]

theorem blobParse_blobStringify (b : KeyBlob) : blobParse (blobStringify b) = some b := by
  show parseBlobChars (blobJsonChars b) = some b
  unfold blobJsonChars parseBlobChars
  simp only [List.append_assoc, expectChars_append, parseNatList_jsonNatList]
  simp

-- ============================================================================
-- The Web Crypto backend
-- ============================================================================

/-- Model of the browser primitives used by `encryption.ts`: `TextEncoder` /
`TextDecoder`, `crypto.subtle` RSA-OAEP key generation / encryption /
decryption (with SPKI/PKCS8 export–import fused into operating on the
exported byte strings), PBKDF2 key derivation, and AES-GCM authenticated
encryption.  The function fields are the operations; the law fields are the
functional contracts of those primitives that the Web Crypto API guarantees
(for the two collision-style laws, in their ideal-primitive reading:
PBKDF2 keys derived from different passwords with the same salt differ, and
AES-GCM ciphertexts over different keys/nonces/plaintexts differ).
Randomness consumed by RSA-OAEP padding is an explicit `Nat` seed; entropy
for `getRandomValues` is threaded separately. -/
structure CryptoBackend where
  utf8Encode : String → List Nat
  utf8Decode : List Nat → String
  keypair : Nat → List Nat × List Nat
  maxPayload : Nat
  rsaEnc : List Nat → List Nat → Nat → Option (List Nat)
  rsaDec : List Nat → List Nat → Option (List Nat)
  pbkdf2 : List Nat → List Nat → List Nat
  aesGcmEnc : List Nat → List Nat → List Nat → List Nat
  aesGcmDec : List Nat → List Nat → List Nat → Option (List Nat)
  utf8_roundTrip : ∀ s, utf8Decode (utf8Encode s) = s
  utf8_isBytes : ∀ s, IsBytes (utf8Encode s)
  keypair_pub_isBytes : ∀ seed, IsBytes (keypair seed).1
  keypair_priv_isBytes : ∀ seed, IsBytes (keypair seed).2
  rsaEnc_total : ∀ seed m r, IsBytes m → m.length ≤ maxPayload →
    ∃ c, rsaEnc (keypair seed).1 m r = some c
  rsaEnc_isBytes : ∀ seed m r c, IsBytes m → rsaEnc (keypair seed).1 m r = some c → IsBytes c
  rsa_roundTrip : ∀ seed m r c, rsaEnc (keypair seed).1 m r = some c →
    rsaDec (keypair seed).2 c = some m
  aesGcm_roundTrip : ∀ k iv m, aesGcmDec k iv (aesGcmEnc k iv m) = some m
  aesGcm_auth : ∀ k k2 iv m, k2 ≠ k → aesGcmDec k2 iv (aesGcmEnc k iv m) = none
  aesGcmEnc_inj : ∀ k1 iv1 m1 k2 iv2 m2,
    aesGcmEnc k1 iv1 m1 = aesGcmEnc k2 iv2 m2 → k1 = k2 ∧ iv1 = iv2 ∧ m1 = m2
  pbkdf2_password_inj : ∀ s p1 p2, p1 ≠ p2 → pbkdf2 p1 s ≠ pbkdf2 p2 s

/-- Models `crypto.getRandomValues(new Uint8Array(count))`, reading `count`
bytes of the entropy tape starting at `off`. -/
def getRandomBytes (tape : Nat → Nat) (off count : Nat) : List Nat :=
  (List.range count).map (fun i => tape (off + i) % 256)

-- ============================================================================
-- encryption.ts
-- ============================================================================

/-- Source: `generateKeyPair` (encryption.ts, lines 19–44): generate an
RSA-OAEP pair, export SPKI/PKCS8, base64-encode both halves. -/
def generateKeyPair (B : CryptoBackend) (seed : Nat) : String × String :=
  (arrayBufferToBase64 (B.keypair seed).1, arrayBufferToBase64 (B.keypair seed).2)

/-- Source: `encryptMessage` (encryption.ts, lines 58–93): base64-decode
and import the receiver's public key, UTF-8 encode the plaintext, RSA-OAEP
encrypt, base64-encode the result; any thrown error is caught and re-thrown
as the single `Failed to encrypt message` error. -/
def encryptMessage (B : CryptoBackend) (plaintext receiverPublicKeyBase64 : String)
    (r : Nat) : Except String String :=
  match base64ToArrayBuffer receiverPublicKeyBase64 with
  | none => .error "Failed to encrypt message"
  | some pubBytes =>
      match B.rsaEnc pubBytes (B.utf8Encode plaintext) r with
      | none => .error "Failed to encrypt message"
      | some ct => .ok (arrayBufferToBase64 ct)

/-- Body of `decryptMessage` before its `catch`: base64-decode and import the
private key, base64-decode the ciphertext, RSA-OAEP decrypt, UTF-8 decode. -/
def decryptMessageBody (B : CryptoBackend) (encryptedBase64 privateKeyBase64 : String) :
    Except String String :=
  match base64ToArrayBuffer privateKeyBase64 with
  | none => .error "invalid private key encoding"
  | some privBytes =>
      match base64ToArrayBuffer encryptedBase64 with
      | none => .error "invalid ciphertext encoding"
      | some ctBytes =>
          match B.rsaDec privBytes ctBytes with
          | none => .error "decryption failed"
          | some ptBytes => .ok (B.utf8Decode ptBytes)

/-- Source: `decryptMessage` (encryption.ts, lines 106–142): the body above
wrapped in `try { … } catch { return '[Unable to decrypt message]' }` —
failure is converted to a returned placeholder, not a rejection. -/
def decryptMessage (B : CryptoBackend) (encryptedBase64 privateKeyBase64 : String) :
    Except String String :=
  match decryptMessageBody B encryptedBase64 privateKeyBase64 with
  | .ok pt => .ok pt
  | .error _ => .ok "[Unable to decrypt message]"

/-- Components produced by `encryptPrivateKey` (encryption.ts, lines
156–208): fresh 16-byte salt, PBKDF2(SHA-256, 100000 iterations) key from
the password and salt, fresh 12-byte IV, AES-GCM encryption of the UTF-8
bytes of the private-key string.  The salt is drawn from the call's entropy
tape at offsets 0–15 and the IV at offsets 16–27, in source order. -/
def encryptPrivateKeyBlob (B : CryptoBackend) (privateKey password : String)
    (tape : Nat → Nat) : KeyBlob :=
  let salt := getRandomBytes tape 0 16
  let key := B.pbkdf2 (B.utf8Encode password) salt
  let iv := getRandomBytes tape 16 12
  let data := B.aesGcmEnc key iv (B.utf8Encode privateKey)
  ⟨salt, iv, data⟩

/-- Source: `encryptPrivateKey` (encryption.ts, lines 156–208): the blob
above serialized with `JSON.stringify`.  No step of the body can fail in
this model, so the surrounding `try`/re-throw is invisible. -/
def encryptPrivateKey (B : CryptoBackend) (privateKey password : String)
    (tape : Nat → Nat) : String :=
  blobStringify (encryptPrivateKeyBlob B privateKey password tape)

/-- Body of `decryptPrivateKey` before its `catch`: parse the JSON blob,
re-derive the PBKDF2 key from the password and stored salt, AES-GCM decrypt
with the stored IV, UTF-8 decode. -/
def decryptPrivateKeyBody (B : CryptoBackend) (encryptedPrivateKey password : String) :
    Except String String :=
  match blobParse encryptedPrivateKey with
  | none => .error "malformed blob"
  | some blob =>
      match B.aesGcmDec (B.pbkdf2 (B.utf8Encode password) blob.salt) blob.iv blob.data with
      | none => .error "authentication failed"
      | some ptBytes => .ok (B.utf8Decode ptBytes)

/-- Source: `decryptPrivateKey` (encryption.ts, lines 218–263): the body
above wrapped in `try { … } catch { throw new Error('Invalid password or
corrupted key') }` — every failure mode is collapsed into that one error. -/
def decryptPrivateKey (B : CryptoBackend) (encryptedPrivateKey password : String) :
    Except String String :=
  match decryptPrivateKeyBody B encryptedPrivateKey password with
  | .ok pk => .ok pk
  | .error _ => .error "Invalid password or corrupted key"

/-- Source: `isValidKey` (encryption.ts, lines 296–304).  `none` models the
`null`/`undefined` arguments of the TS signature; the JS guard `!key` is
falsy exactly for the empty string among strings, and otherwise the check is
whether `atob` succeeds. -/
def isValidKey (key : Option String) : Bool :=
  match key with
  | none => false
  | some k => if k = "" then false else (base64ToArrayBuffer k).isSome

-- ============================================================================
-- CryptoContext.tsx: the session key cache
-- ============================================================================

/-- State held by `CryptoProvider` (CryptoContext.tsx, lines 454–518): the
decrypted private key, the public key, and the associated user id, all
in-memory only and absent (`none`) until loaded. -/
structure CryptoState where
  privateKey : Option String
  publicKey : Option String
  userId : Option String
deriving DecidableEq

/-- Initial provider state: `useState(null)` for all three fields. -/
def initialCryptoState : CryptoState := ⟨none, none, none⟩

/-- Source: `setKeys` (CryptoContext.tsx, lines 464–474): validate both keys
with `isValidKey`; if either is invalid, log and return leaving the state
unchanged, otherwise store both. -/
def setKeys (s : CryptoState) (newPrivateKey newPublicKey : String) : CryptoState :=
  if !(isValidKey (some newPrivateKey)) || !(isValidKey (some newPublicKey)) then s
  else { s with privateKey := some newPrivateKey, publicKey := some newPublicKey }

/-- Source: `clearKeys` (CryptoContext.tsx, lines 480–485): null out all
three fields. -/
def clearKeys (_ : CryptoState) : CryptoState := ⟨none, none, none⟩

/-- Source: `hasKeys` (CryptoContext.tsx, lines 490–492): both stored keys
pass `isValidKey`. -/
def hasKeys (s : CryptoState) : Bool :=
  isValidKey s.privateKey && isValidKey s.publicKey

-- ============================================================================
-- MessageService.ts
-- ============================================================================

/-- Message row as stored and fetched (fields consumed by the service). -/
structure Message where
  id : String
  sender_id : String
  receiver_id : String
  content : String
  is_read : Bool
  listing_id : Option String
deriving DecidableEq

/-- Parameters of `MessageService.sendMessage`; `encryptionEnabled` defaults
to `true` in the source. -/
structure SendMessageParams where
  senderId : String
  receiverId : String
  content : String
  listingId : Option String
  encryptionEnabled : Bool
deriving DecidableEq

namespace MessageService

/-- Source: `MessageService.sendMessage` (MessageService.ts, lines 46–97).
`receiverPublicKey` is the awaited result of `getPublicKey(receiverId)`
(KeyService.ts, lines 221–239), `none` when the receiver has no stored key
row; the JS guard `!receiverPublicKey` also treats an empty-string key as
missing.  `newId` stands for the database-assigned row id; the insert of the
external store is modelled as succeeding.  The result is the pair (row
stored in the `messages` table, message object returned to the caller) —
the returned object carries the original plaintext content — or `none` when
`encryptMessage` throws and the outer `catch` returns `null`. -/
def sendMessage (B : CryptoBackend) (receiverPublicKey : Option String)
    (p : SendMessageParams) (r : Nat) (newId : String) : Option (Message × Message) :=
  let contentToStore : Except String String :=
    if p.encryptionEnabled then
      match receiverPublicKey with
      | none => .ok p.content
      | some k => if k = "" then .ok p.content else encryptMessage B p.content k r
    else .ok p.content
  match contentToStore with
  | .error _ => none
  | .ok stored =>
      let row : Message :=
        ⟨newId, p.senderId, p.receiverId, stored, false, p.listingId⟩
      some (row, { row with content := p.content })

/-- Per-message step of `MessageService.getMessages` (MessageService.ts,
lines 127–150): decrypt only when the current user is the receiver; the
surrounding `try`/`catch` returns the message as-is on a thrown error; sent
messages and all others are returned unchanged. -/
def processFetchedMessage (B : CryptoBackend) (userId privateKey : String)
    (msg : Message) : Message :=
  if msg.receiver_id = userId then
    match decryptMessage B msg.content privateKey with
    | .ok v => { msg with content := v }
    | .error _ => msg
  else msg

/-- Source: `MessageService.getMessages` (MessageService.ts, lines 102–163),
from the point where the rows have been fetched: when a (truthy) private key
was supplied and the list is non-empty, map the per-message decryption step
over the rows; otherwise return them as fetched. -/
def getMessages (B : CryptoBackend) (userId : String) (privateKey : Option String)
    (fetched : List Message) : List Message :=
  match privateKey with
  | some pk =>
      if pk ≠ "" ∧ 0 < fetched.length then
        fetched.map (processFetchedMessage B userId pk)
      else fetched
  | none => fetched

/-- Source: `MessageService.looksEncrypted` (MessageService.ts, lines
429–436): length at least 50, only base64 alphabet / `=` characters, and
length strictly above 100. -/
def looksEncrypted (content : String) : Bool :=
  if content.length < 50 then false
  else
    (content.data.all fun c =>
      ('A' ≤ c ∧ c ≤ 'Z') ∨ ('a' ≤ c ∧ c ≤ 'z') ∨ ('0' ≤ c ∧ c ≤ '9')
        ∨ c = '+' ∨ c = '/' ∨ c = '=') && decide (100 < content.length)

/-- Source: the preview computation of `MessageService.getConversations`
(MessageService.ts, lines 192–204) for the group's latest message: with a
truthy private key and the current user as receiver, `try { decrypt } catch
{ "🔒 Encrypted message" }`; otherwise the heuristic `looksEncrypted`
placeholder, else the raw content. -/
def conversationPreview (B : CryptoBackend) (userId : String)
    (privateKey : Option String) (msg : Message) : String :=
  match privateKey with
  | some pk =>
      if pk ≠ "" ∧ msg.receiver_id = userId then
        match decryptMessage B msg.content pk with
        | .ok v => v
        | .error _ => "🔒 Encrypted message"
      else if looksEncrypted msg.content then "🔒 Encrypted message"
      else msg.content
  | none =>
      if looksEncrypted msg.content then "🔒 Encrypted message"
      else msg.content

end MessageService

-- ============================================================================
-- A concrete executable backend instance
-- ============================================================================

/-- Toy character-list encoder: three bytes per code point.  This is not
UTF-8; it is only required to satisfy the `CryptoBackend` laws (totality,
byte-ness, round-trip), which is all the embedded code relies on. -/
def toyCharsEncode : List Char → List Nat
  | [] => []
  | c :: rest =>
      (c.toNat / 65536) :: ((c.toNat / 256 % 256) :: ((c.toNat % 256) :: toyCharsEncode rest))

/-- Toy decoder, total on arbitrary byte lists (as `TextDecoder` is). -/
def toyCharsDecode : List Nat → List Char
  | a :: b :: c :: rest => Char.ofNat (a * 65536 + b * 256 + c) :: toyCharsDecode rest
  | _ => []

theorem char_toNat_lt (c : Char) : c.toNat < 1114112 := by
  have h := c.valid
  have he : c.toNat = c.val.toNat := rfl
  rw [he]
  rcases h with h | h <;> omega

theorem toyCharsDecode_toyCharsEncode : ∀ cs, toyCharsDecode (toyCharsEncode cs) = cs := by
  intro cs
  induction cs with
  | nil => rfl
  | cons c rest ih =>
      have hc := char_toNat_lt c
      simp only [toyCharsEncode, toyCharsDecode, ih, List.cons.injEq, and_true]
      have harith : c.toNat / 65536 * 65536 + c.toNat / 256 % 256 * 256 + c.toNat % 256
          = c.toNat := by omega
      rw [harith, Char.ofNat_toNat]

theorem toyCharsEncode_isBytes (cs : List Char) : IsBytes (toyCharsEncode cs) := by
  induction cs with
  | nil => intro x hx; simp [toyCharsEncode] at hx
  | cons c rest ih =>
      have hc := char_toNat_lt c
      intro x hx
      simp only [toyCharsEncode, List.mem_cons] at hx
      rcases hx with rfl | rfl | rfl | hx
      · omega
      · omega
      · omega
      · exact ih x hx

/-- Toy AES-GCM: the ciphertext records the key and IV (with length tags) in
front of the plaintext, so decryption can check them and the laws hold. -/
def toyGcmEnc (k iv m : List Nat) : List Nat :=
  k.length :: (k ++ (iv.length :: (iv ++ m)))

/-- Toy AES-GCM decryption: succeed only when the recorded key and IV match. -/
def toyGcmDec (k iv c : List Nat) : Option (List Nat) :=
  if (k.length :: (k ++ (iv.length :: iv))).isPrefixOf c then
    some (c.drop (k.length + iv.length + 2))
  else none

theorem toyGcmEnc_shape (k iv m : List Nat) :
    toyGcmEnc k iv m = (k.length :: (k ++ (iv.length :: iv))) ++ m := by
  simp [toyGcmEnc]

theorem toyGcm_roundTrip (k iv m : List Nat) : toyGcmDec k iv (toyGcmEnc k iv m) = some m := by
  rw [toyGcmEnc_shape]
  unfold toyGcmDec
  rw [if_pos (by rw [List.isPrefixOf_iff_prefix]; exact List.prefix_append _ _)]
  have hlen : (k.length :: (k ++ (iv.length :: iv))).length = k.length + iv.length + 2 := by
    simp only [List.length_cons, List.length_append]
    omega
  rw [← hlen, List.drop_left]

theorem toyGcm_auth (k k2 iv m : List Nat) (h : k2 ≠ k) :
    toyGcmDec k2 iv (toyGcmEnc k iv m) = none := by
  unfold toyGcmDec
  rw [if_neg]
  intro hpre
  rw [List.isPrefixOf_iff_prefix] at hpre
  rw [toyGcmEnc, List.cons_prefix_cons] at hpre
  obtain ⟨hlen, hp⟩ := hpre
  obtain ⟨t, ht⟩ := hp
  rw [List.append_assoc] at ht
  exact h (List.append_inj ht hlen).1

theorem toyGcmEnc_inj (k1 iv1 m1 k2 iv2 m2 : List Nat)
    (h : toyGcmEnc k1 iv1 m1 = toyGcmEnc k2 iv2 m2) :
    k1 = k2 ∧ iv1 = iv2 ∧ m1 = m2 := by
  unfold toyGcmEnc at h
  rw [List.cons.injEq] at h
  obtain ⟨hklen, htail⟩ := h
  obtain ⟨hk, htail2⟩ := List.append_inj htail hklen
  rw [List.cons.injEq] at htail2
  obtain ⟨hivlen, htail3⟩ := htail2
  obtain ⟨hiv, hm⟩ := List.append_inj htail3 hivlen
  exact ⟨hk, hiv, hm⟩

/-- Toy PBKDF2: password and salt separated by a non-byte sentinel. -/
def toyPbkdf2 (p s : List Nat) : List Nat := p ++ (256 :: s)

theorem toyPbkdf2_inj (s p1 p2 : List Nat) (h : p1 ≠ p2) :
    toyPbkdf2 p1 s ≠ toyPbkdf2 p2 s := by
  intro he
  unfold toyPbkdf2 at he
  have hlen : p1.length = p2.length := by
    have hl := congrArg List.length he
    simp only [List.length_append, List.length_cons] at hl
    omega
  exact h (List.append_inj he hlen).1

/-- Concrete executable backend satisfying all `CryptoBackend` laws. -/
def toyBackend : CryptoBackend where
  utf8Encode s := toyCharsEncode s.data
  utf8Decode l := ⟨toyCharsDecode l⟩
  keypair seed := ([seed % 256], [seed % 256])
  maxPayload := 190
  rsaEnc pub m _ := if m.length ≤ 190 then some (pub ++ m) else none
  rsaDec _ c := some (c.drop 1)
  pbkdf2 := toyPbkdf2
  aesGcmEnc := toyGcmEnc
  aesGcmDec := toyGcmDec
  utf8_roundTrip s := by
    cases s with
    | mk data => simp [toyCharsDecode_toyCharsEncode]
  utf8_isBytes s := toyCharsEncode_isBytes s.data
  keypair_pub_isBytes seed := by
    intro x hx
    simp only [List.mem_singleton] at hx
    subst hx
    exact Nat.mod_lt _ (by omega)
  keypair_priv_isBytes seed := by
    intro x hx
    simp only [List.mem_singleton] at hx
    subst hx
    exact Nat.mod_lt _ (by omega)
  rsaEnc_total seed m r _ hlen := ⟨[seed % 256] ++ m, by simp [hlen]⟩
  rsaEnc_isBytes seed m r c hm henc := by
    dsimp only at henc
    by_cases hlen : m.length ≤ 190
    · rw [if_pos hlen, Option.some.injEq] at henc
      subst henc
      intro x hx
      rcases List.mem_append.mp hx with hx | hx
      · simp only [List.mem_singleton] at hx
        subst hx
        exact Nat.mod_lt _ (by omega)
      · exact hm x hx
    · rw [if_neg hlen] at henc
      exact absurd henc (by simp)
  rsa_roundTrip seed m r c henc := by
    dsimp only at henc ⊢
    by_cases hlen : m.length ≤ 190
    · rw [if_pos hlen, Option.some.injEq] at henc
      subst henc
      simp
    · rw [if_neg hlen] at henc
      exact absurd henc (by simp)
  aesGcm_roundTrip := toyGcm_roundTrip
  aesGcm_auth := toyGcm_auth
  aesGcmEnc_inj := toyGcmEnc_inj
  pbkdf2_password_inj := toyPbkdf2_inj

-- ============================================================================
-- Shared helper lemmas
-- ============================================================================

theorem decryptMessage_spec (B : CryptoBackend) (c k : String) :
    (∃ p, decryptMessageBody B c k = .ok p ∧ decryptMessage B c k = .ok p)
      ∨ ((∃ e, decryptMessageBody B c k = .error e) ∧
          decryptMessage B c k = .ok "[Unable to decrypt message]") := by
  cases h : decryptMessageBody B c k with
  | ok p => exact .inl ⟨p, rfl, by simp [decryptMessage, h]⟩
  | error e => exact .inr ⟨⟨e, rfl⟩, by simp [decryptMessage, h]⟩

theorem generateKeyPair_pub_decodes (B : CryptoBackend) (seed : Nat) :
    base64ToArrayBuffer (generateKeyPair B seed).1 = some (B.keypair seed).1 :=
  base64ToArrayBuffer_arrayBufferToBase64 _ (B.keypair_pub_isBytes seed)

theorem generateKeyPair_priv_decodes (B : CryptoBackend) (seed : Nat) :
    base64ToArrayBuffer (generateKeyPair B seed).2 = some (B.keypair seed).2 :=
  base64ToArrayBuffer_arrayBufferToBase64 _ (B.keypair_priv_isBytes seed)

-- ============================================================================
-- Claim theorems
-- ============================================================================

/-- C1: for every plaintext within the key's maximum payload size and every
generated key pair, encrypting with the public key succeeds and decrypting
the result with the private key returns exactly the plaintext. -/
theorem C1_encrypt_decrypt_roundTrip (B : CryptoBackend) (seed r : Nat) (p : String)
    (h : (B.utf8Encode p).length ≤ B.maxPayload) :
    ∃ ct, encryptMessage B p (generateKeyPair B seed).1 r = .ok ct ∧
      decryptMessage B ct (generateKeyPair B seed).2 = .ok p := by
  obtain ⟨c, hc⟩ := B.rsaEnc_total seed (B.utf8Encode p) r (B.utf8_isBytes p) h
  refine ⟨arrayBufferToBase64 c, ?_, ?_⟩
  · unfold encryptMessage
    simp only [generateKeyPair_pub_decodes, hc]
  · have hbody : decryptMessageBody B (arrayBufferToBase64 c) (generateKeyPair B seed).2
        = .ok p := by
      have h2 := base64ToArrayBuffer_arrayBufferToBase64 c
        (B.rsaEnc_isBytes seed (B.utf8Encode p) r c (B.utf8_isBytes p) hc)
      have h3 := B.rsa_roundTrip seed (B.utf8Encode p) r c hc
      unfold decryptMessageBody
      simp only [generateKeyPair_priv_decodes, h2, h3, B.utf8_roundTrip]
    unfold decryptMessage
    simp only [hbody]

/-- Witness for C1 at a concrete backend, seed and plaintext. -/
theorem C1_witness :
    (toyBackend.utf8Encode "hi").length ≤ toyBackend.maxPayload ∧
    (∃ ct, encryptMessage toyBackend "hi" (generateKeyPair toyBackend 0).1 0 = .ok ct ∧
      decryptMessage toyBackend ct (generateKeyPair toyBackend 0).2 = .ok "hi") :=
  ⟨by decide, C1_encrypt_decrypt_roundTrip toyBackend 0 0 "hi" (by decide)⟩

/-- C2: `decryptMessage` never rejects: for every ciphertext/private-key
string pair it returns either the decrypted plaintext or the fixed sentinel
`[Unable to decrypt message]`. -/
theorem C2_decryptMessage_never_throws (B : CryptoBackend) (c k : String) :
    (∃ v, decryptMessage B c k = .ok v) ∧
    ((∃ p, decryptMessageBody B c k = .ok p ∧ decryptMessage B c k = .ok p) ∨
      decryptMessage B c k = .ok "[Unable to decrypt message]") := by
  rcases decryptMessage_spec B c k with ⟨p, hb, hd⟩ | ⟨_, hd⟩
  · exact ⟨⟨p, hd⟩, .inl ⟨p, hb, hd⟩⟩
  · exact ⟨⟨_, hd⟩, .inr hd⟩

/-- C3: decrypting a password-protected private key with the same password
returns exactly the original private-key string. -/
theorem C3_privateKey_password_roundTrip (B : CryptoBackend) (pk pw : String)
    (tape : Nat → Nat) :
    decryptPrivateKey B (encryptPrivateKey B pk pw tape) pw = .ok pk := by
  unfold decryptPrivateKey decryptPrivateKeyBody encryptPrivateKey
  simp only [blobParse_blobStringify]
  dsimp only [encryptPrivateKeyBlob]
  simp only [B.aesGcm_roundTrip, B.utf8_roundTrip]

/-- C4: decrypting with a different password fails with the single
`Invalid password or corrupted key` error (the authentication tag does not
verify); no plaintext is ever returned. -/
theorem C4_wrong_password_rejected (B : CryptoBackend) (pk w1 w2 : String)
    (tape : Nat → Nat) (h : w1 ≠ w2) :
    decryptPrivateKey B (encryptPrivateKey B pk w1 tape) w2
      = .error "Invalid password or corrupted key" := by
  have hne : B.utf8Encode w2 ≠ B.utf8Encode w1 := by
    intro he
    exact h (by rw [← B.utf8_roundTrip w1, ← B.utf8_roundTrip w2, he])
  unfold decryptPrivateKey decryptPrivateKeyBody encryptPrivateKey
  simp only [blobParse_blobStringify]
  dsimp only [encryptPrivateKeyBlob]
  simp only [B.aesGcm_auth _ _ _ _ (B.pbkdf2_password_inj _ _ _ hne)]

/-- Witness for C4 at a concrete backend, key, passwords and entropy tape. -/
theorem C4_witness :
    ("a" : String) ≠ "b" ∧
    decryptPrivateKey toyBackend (encryptPrivateKey toyBackend "k" "a" (fun _ => 0)) "b"
      = .error "Invalid password or corrupted key" :=
  ⟨by decide, C4_wrong_password_rejected toyBackend "k" "a" "b" (fun _ => 0) (by decide)⟩

/-- C5: the session key cache refuses partial loads and transitions
atomically: `setKeys` with either key invalid leaves the state unchanged;
`setKeys` with two structurally valid keys makes `hasKeys` true with both
accessors returning exactly the loaded values; after `clearKeys`, `hasKeys`
is false and both accessors are absent. -/
theorem C5_session_cache_atomic (s : CryptoState) (priv pub : String) :
    ((isValidKey (some priv) = false ∨ isValidKey (some pub) = false) →
      setKeys s priv pub = s) ∧
    (isValidKey (some priv) = true → isValidKey (some pub) = true →
      hasKeys (setKeys s priv pub) = true ∧
      (setKeys s priv pub).privateKey = some priv ∧
      (setKeys s priv pub).publicKey = some pub) ∧
    (hasKeys (clearKeys s) = false ∧ (clearKeys s).privateKey = none ∧
      (clearKeys s).publicKey = none) := by
  refine ⟨?_, ?_, ?_⟩
  · intro hbad
    unfold setKeys
    rcases hbad with hb | hb <;> rw [if_pos] <;> simp [hb]
  · intro hp hq
    unfold setKeys hasKeys
    simp [hp, hq]
  · unfold clearKeys hasKeys isValidKey
    simp

/-- Witness for C5 at a concrete state and concrete valid keys. -/
theorem C5_witness :
    isValidKey (some "QUJD") = true ∧
    (hasKeys (setKeys initialCryptoState "QUJD" "QUJD") = true ∧
      (setKeys initialCryptoState "QUJD" "QUJD").privateKey = some "QUJD" ∧
      (setKeys initialCryptoState "QUJD" "QUJD").publicKey = some "QUJD") :=
  ⟨by decide,
    (C5_session_cache_atomic initialCryptoState "QUJD" "QUJD").2.1 (by decide) (by decide)⟩

/-- C6: with encryption enabled and no stored public key for the receiver,
`sendMessage` stores the content unencrypted (the stored row's content is the
input plaintext), and the send is not blocked by any error. -/
theorem C6_no_key_plaintext_fallback (B : CryptoBackend) (p : SendMessageParams)
    (r : Nat) (newId : String) (henc : p.encryptionEnabled = true) :
    ∃ row ret, MessageService.sendMessage B none p r newId = some (row, ret) ∧
      row.content = p.content := by
  refine ⟨⟨newId, p.senderId, p.receiverId, p.content, false, p.listingId⟩,
    ⟨newId, p.senderId, p.receiverId, p.content, false, p.listingId⟩, ?_, rfl⟩
  unfold MessageService.sendMessage
  rw [henc]
  rfl

/-- Witness for C6 at concrete parameters. -/
theorem C6_witness :
    (⟨"u", "v", "hello", none, true⟩ : SendMessageParams).encryptionEnabled = true ∧
    (∃ row ret, MessageService.sendMessage toyBackend none
        ⟨"u", "v", "hello", none, true⟩ 0 "m1" = some (row, ret) ∧
      row.content = (⟨"u", "v", "hello", none, true⟩ : SendMessageParams).content) :=
  ⟨rfl, C6_no_key_plaintext_fallback toyBackend ⟨"u", "v", "hello", none, true⟩ 0 "m1" rfl⟩

/-- C7: two `encryptPrivateKey` calls on identical inputs draw their 16-byte
salt and 12-byte IV fresh from their own call's randomness, and whenever the
drawn salts and IVs differ, the two blobs have different salts, different
IVs and different ciphertexts. -/
theorem C7_freshness (B : CryptoBackend) (pk w : String) (t1 t2 : Nat → Nat)
    (hsalt : getRandomBytes t1 0 16 ≠ getRandomBytes t2 0 16)
    (hiv : getRandomBytes t1 16 12 ≠ getRandomBytes t2 16 12) :
    (encryptPrivateKeyBlob B pk w t1).salt = getRandomBytes t1 0 16 ∧
    (encryptPrivateKeyBlob B pk w t1).iv = getRandomBytes t1 16 12 ∧
    (encryptPrivateKeyBlob B pk w t1).salt ≠ (encryptPrivateKeyBlob B pk w t2).salt ∧
    (encryptPrivateKeyBlob B pk w t1).iv ≠ (encryptPrivateKeyBlob B pk w t2).iv ∧
    (encryptPrivateKeyBlob B pk w t1).data ≠ (encryptPrivateKeyBlob B pk w t2).data := by
  refine ⟨rfl, rfl, hsalt, hiv, ?_⟩
  intro hdata
  dsimp only [encryptPrivateKeyBlob] at hdata
  exact hiv (B.aesGcmEnc_inj _ _ _ _ _ _ hdata).2.1

/-- Witness for C7 at two concrete entropy tapes. -/
theorem C7_witness :
    getRandomBytes (fun _ => 0) 0 16 ≠ getRandomBytes (fun _ => 1) 0 16 ∧
    getRandomBytes (fun _ => 0) 16 12 ≠ getRandomBytes (fun _ => 1) 16 12 ∧
    (encryptPrivateKeyBlob toyBackend "k" "w" (fun _ => 0)).data
      ≠ (encryptPrivateKeyBlob toyBackend "k" "w" (fun _ => 1)).data :=
  ⟨by decide, by decide,
    (C7_freshness toyBackend "k" "w" (fun _ => 0) (fun _ => 1)
      (by decide) (by decide)).2.2.2.2⟩

/-- C8 counterexample: the claim's equivalence fails at the empty string —
`atob("")` succeeds (the empty string decodes), but `isValidKey("")` is
`false` because the JS guard `!key` is truthy for `""`. -/
theorem C8_counterexample :
    ¬ (isValidKey (some "") = true ↔ (base64ToArrayBuffer "").isSome = true) := by decide

/-- C8 (amended): `isValidKey` returns true iff the value is a *non-empty*
string that decodes under base64; it returns false for `null`/`undefined`,
the empty string, and non-decodable strings. -/
theorem C8_isValidKey_structural (v : Option String) :
    isValidKey v = true ↔
      ∃ s, v = some s ∧ s ≠ "" ∧ (base64ToArrayBuffer s).isSome = true := by
  cases v with
  | none => simp [isValidKey]
  | some k =>
      by_cases hk : k = ""
      · subst hk
        simp [isValidKey]
      · simp [isValidKey, hk]

/-- C9 counterexample: a fetched self-message (sender and receiver both the
current user) has `sender_id = userId` yet is *not* passed through
unchanged — the receiver branch decrypts it, here to the sentinel. -/
theorem C9_counterexample :
    (⟨"m1", "u", "u", "###", false, none⟩ : Message).sender_id = "u" ∧
    MessageService.getMessages toyBackend "u" (some "QQ==")
        [⟨"m1", "u", "u", "###", false, none⟩]
      = [⟨"m1", "u", "u", "[Unable to decrypt message]", false, none⟩] ∧
    ("[Unable to decrypt message]" : String) ≠ "###" := by
  refine ⟨rfl, ?_, by decide⟩
  decide

/-- C9 (amended): `getMessages` applies the per-message decryption step only
through `processFetchedMessage`, which touches a message only when the
current user is its receiver; every fetched message whose sender is the
current user *and whose receiver is not* is returned unchanged. -/
theorem C9_sender_passthrough (B : CryptoBackend) (userId pk : String)
    (fetched : List Message) (msg : Message) :
    MessageService.getMessages B userId (some pk) fetched
      = (if pk ≠ "" ∧ 0 < fetched.length then
          fetched.map (MessageService.processFetchedMessage B userId pk) else fetched) ∧
    (msg.sender_id = userId → msg.receiver_id ≠ userId →
      MessageService.processFetchedMessage B userId pk msg = msg) ∧
    (msg.receiver_id ≠ userId →
      MessageService.processFetchedMessage B userId pk msg = msg) := by
  refine ⟨rfl, fun _ h => ?_, fun h => ?_⟩ <;>
    · unfold MessageService.processFetchedMessage
      rw [if_neg h]

/-- Witness for C9 (amended) at a concrete sent message. -/
theorem C9_witness :
    (⟨"m2", "u", "v", "hello", false, none⟩ : Message).sender_id = "u" ∧
    (⟨"m2", "u", "v", "hello", false, none⟩ : Message).receiver_id ≠ "u" ∧
    MessageService.processFetchedMessage toyBackend "u" "QQ=="
        ⟨"m2", "u", "v", "hello", false, none⟩
      = ⟨"m2", "u", "v", "hello", false, none⟩ :=
  ⟨rfl, by decide,
    (C9_sender_passthrough toyBackend "u" "QQ==" []
      ⟨"m2", "u", "v", "hello", false, none⟩).2.1 rfl (by decide)⟩

/-- C10: with a private key supplied and the current user the receiver, the
conversation preview is exactly what `decryptMessage` resolves to — the
catch branch producing `🔒 Encrypted message` is unreachable — so an
undecryptable received message previews as `[Unable to decrypt message]`,
never as `🔒 Encrypted message`. -/
theorem C10_preview_no_lock_placeholder (B : CryptoBackend) (userId pk : String)
    (msg : Message) (hpk : pk ≠ "") (hrecv : msg.receiver_id = userId) :
    Except.ok (MessageService.conversationPreview B userId (some pk) msg)
        = decryptMessage B msg.content pk ∧
    ((∃ e, decryptMessageBody B msg.content pk = .error e) →
      MessageService.conversationPreview B userId (some pk) msg
        = "[Unable to decrypt message]") := by
  have hred : MessageService.conversationPreview B userId (some pk) msg
      = (match decryptMessage B msg.content pk with
          | .ok v => v
          | .error _ => "🔒 Encrypted message") := by
    unfold MessageService.conversationPreview
    dsimp only
    rw [if_pos ⟨hpk, hrecv⟩]
  rcases decryptMessage_spec B msg.content pk with ⟨p, hb, hd⟩ | ⟨⟨e, hb⟩, hd⟩
  · rw [hred, hd]
    refine ⟨rfl, fun ⟨e2, he⟩ => ?_⟩
    rw [hb] at he
    exact absurd he (by simp)
  · rw [hred, hd]
    exact ⟨rfl, fun _ => rfl⟩

/-- Witness for C10 at a concrete undecryptable received message. -/
theorem C10_witness :
    ("QQ==" : String) ≠ "" ∧
    MessageService.conversationPreview toyBackend "u" (some "QQ==")
        ⟨"m3", "v", "u", "###", false, none⟩
      = "[Unable to decrypt message]" :=
  ⟨by decide,
    (C10_preview_no_lock_placeholder toyBackend "u" "QQ=="
        ⟨"m3", "v", "u", "###", false, none⟩ (by decide) rfl).2
      ⟨"invalid ciphertext encoding", rfl⟩⟩
